import Mathlib

/-
Verification development for the xeokit chatbot ingestion pipeline
(src/chatbot.ts), shallowly embedded in Lean 4.

The source is orchestration glue around external services.  The embedding
models the repository functions over explicit environments:
  - a wrapped write operation is modelled by the outcome of each of its
    invocations (invocation number k yields fn k);
  - the file system seen by the directory loader is a listing of entries,
    each carrying the outcome of reading it and the results of the HTML
    extraction performed by the cheerio library on its content;
  - the vector store and the language model are abstract functions.
JavaScript numbers occur only at small natural values (counters, delays),
so they are modelled as Nat.
-/

namespace Chatbot

/-
Embedding of retryWithBackoff (src/chatbot.ts lines 120-133):

    async function retryWithBackoff(fn, maxRetries = 3, initialDelay = 1000) {
        let retries = 0;
        while (retries < maxRetries) {
            try { return await fn(); }
            catch (error) {
                retries++;
                if (retries === maxRetries) throw error;
                const delay = initialDelay * Math.pow(2, retries);
                await new Promise(resolve => setTimeout(resolve, delay));
            }
        }
    }

The loop is re-indexed by remaining = maxRetries - retries so that the
recursion is structural.  At loop entry with counter r:
  - remaining = 0 means the guard retries < maxRetries fails and the
    function falls through, returning undefined (modelled as Except.ok none);
  - remaining = 1 means a failure makes retries reach maxRetries, so the
    error is rethrown;
  - remaining >= 2 means a failure schedules a delay of
    initialDelay * 2 ^ (r + 1) and loops.
The trace records the returned value, how many times fn was invoked, and
the delays scheduled between attempts, in order.
-/

structure RetryTrace (ε α : Type) where
  result : Except ε (Option α)
  invocations : Nat
  delays : List Nat

def retryLoop (fn : Nat → Except ε α) (initialDelay : Nat) : Nat → Nat → RetryTrace ε α
  | _, 0 => ⟨Except.ok none, 0, []⟩
  | r, 1 =>
    match fn r with
    | Except.ok a => ⟨Except.ok (some a), 1, []⟩
    | Except.error e => ⟨Except.error e, 1, []⟩
  | r, rem + 2 =>
    match fn r with
    | Except.ok a => ⟨Except.ok (some a), 1, []⟩
    | Except.error _ =>
      let rest := retryLoop fn initialDelay (r + 1) (rem + 1)
      ⟨rest.result, rest.invocations + 1, (initialDelay * 2 ^ (r + 1)) :: rest.delays⟩

def retryWithBackoff (fn : Nat → Except ε α) (maxRetries initialDelay : Nat) :
    RetryTrace ε α :=
  retryLoop fn initialDelay 0 maxRetries

/-- Default parameter values of retryWithBackoff in the source. -/
def defaultMaxRetries : Nat := 3

/-- Default initial delay of retryWithBackoff in the source. -/
def defaultInitialDelay : Nat := 1000

/-- retryWithBackoff as called by the Batcher, with both defaults. -/
def retryWithBackoffDefault (fn : Nat → Except ε α) : RetryTrace ε α :=
  retryWithBackoff fn defaultMaxRetries defaultInitialDelay

/- Basic lemmas about the retry loop. -/

theorem retryLoop_allFail (fn : Nat → Except ε α) (err : Nat → ε) (d : Nat)
    (h : ∀ k, fn k = Except.error (err k)) :
    ∀ rem r, (retryLoop fn d r (rem + 1)).result = Except.error (err (r + rem)) ∧
      (retryLoop fn d r (rem + 1)).invocations = rem + 1 := by
  intro rem
  induction rem with
  | zero =>
    intro r
    simp [retryLoop, h r]
  | succ n ih =>
    intro r
    have hih := ih (r + 1)
    simp only [retryLoop, h r]
    refine ⟨?_, ?_⟩
    · have harith : r + 1 + n = r + (n + 1) := by omega
      rw [← harith]
      exact hih.1
    · rw [hih.2]

theorem retryLoop_firstSuccess (fn : Nat → Except ε α) (d : Nat) (a : α) :
    ∀ j r rem, (∀ k, r ≤ k → k < r + j → ∃ e, fn k = Except.error e) →
      fn (r + j) = Except.ok a → j < rem →
      (retryLoop fn d r rem).result = Except.ok (some a) ∧
        (retryLoop fn d r rem).invocations = j + 1 := by
  intro j
  induction j with
  | zero =>
    intro r rem _ hok hlt
    have hr : fn r = Except.ok a := by simpa using hok
    match rem, hlt with
    | 1, _ => simp [retryLoop, hr]
    | m + 2, _ => simp [retryLoop, hr]
  | succ n ih =>
    intro r rem hfail hok hlt
    obtain ⟨e, he⟩ := hfail r (Nat.le_refl r) (by omega)
    match rem, hlt with
    | m + 2, hlt =>
      have hfail2 : ∀ k, r + 1 ≤ k → k < r + 1 + n → ∃ e, fn k = Except.error e := by
        intro k hk1 hk2
        exact hfail k (by omega) (by omega)
      have hok2 : fn (r + 1 + n) = Except.ok a := by
        have harith : r + 1 + n = r + (n + 1) := by omega
        rw [harith]; exact hok
      have hrec := ih (r + 1) (m + 1) hfail2 hok2 (by omega)
      simp only [retryLoop, he]
      exact ⟨hrec.1, by rw [hrec.2]⟩

theorem retryLoop_invocations_le (fn : Nat → Except ε α) (d : Nat) :
    ∀ rem r, (retryLoop fn d r rem).invocations ≤ rem := by
  intro rem
  induction rem with
  | zero => intro r; simp [retryLoop]
  | succ n ih =>
    intro r
    match n with
    | 0 =>
      cases hr : fn r <;> simp [retryLoop, hr]
    | m + 1 =>
      cases hr : fn r with
      | ok a => simp [retryLoop, hr]
      | error e =>
        have := ih (r + 1)
        simp only [retryLoop, hr]
        omega

theorem retryLoop_result_ne_none (fn : Nat → Except ε α) (d : Nat) :
    ∀ rem r, 1 ≤ rem → (retryLoop fn d r rem).result ≠ Except.ok none := by
  intro rem
  induction rem with
  | zero => intro r h; omega
  | succ n ih =>
    intro r _
    match n with
    | 0 =>
      cases hr : fn r <;> simp [retryLoop, hr]
    | m + 1 =>
      cases hr : fn r with
      | ok a => simp [retryLoop, hr]
      | error e =>
        have := ih (r + 1) (by omega)
        simp only [retryLoop, hr]
        exact this

theorem retryLoop_delays (fn : Nat → Except ε α) (d : Nat) :
    ∀ rem r, (retryLoop fn d r rem).delays =
      (List.range' (r + 1) (retryLoop fn d r rem).delays.length).map
        (fun i => d * 2 ^ i) := by
  intro rem
  induction rem with
  | zero => intro r; simp [retryLoop]
  | succ n ih =>
    intro r
    match n with
    | 0 =>
      cases hr : fn r <;> simp [retryLoop, hr]
    | m + 1 =>
      cases hr : fn r with
      | ok a => simp [retryLoop, hr]
      | error e =>
        have hrec := ih (r + 1)
        simp only [retryLoop, hr, List.length_cons]
        rw [List.range'_succ, List.map_cons]
        exact congrArg (fun t => d * 2 ^ (r + 1) :: t) hrec

/- Concrete operations used to witness the retry theorems. -/

/-- Operation that fails on invocation 0 and succeeds from invocation 1 on. -/
def c1Fn : Nat → Except Unit Nat := fun k => if k = 0 then Except.error () else Except.ok 7

/-- Operation that fails on every invocation. -/
def c1FnF : Nat → Except Unit Nat := fun _ => Except.error ()

/-- Operation that fails on invocations 0, 1, 2 and succeeds from invocation 3 on. -/
def c3Fn : Nat → Except Unit Unit := fun k => if k < 3 then Except.error () else Except.ok ()

/-- Operation that always succeeds. -/
def c10Fn : Nat → Except Unit Unit := fun _ => Except.ok ()

/-- C1: for every wrapped operation and every r < maxRetries, if the operation
fails the first r invocations and succeeds on the next one, retryWithBackoff
returns that success after exactly r + 1 invocations; if the operation fails
on every invocation, retryWithBackoff raises the error of the last invocation
after exactly maxRetries invocations. -/
theorem retry_success_and_exhaustion {ε α : Type} :
    (∀ (fn : Nat → Except ε α) (m d r : Nat) (a : α),
      r < m → (∀ k, k < r → ∃ e, fn k = Except.error e) → fn r = Except.ok a →
      (retryWithBackoff fn m d).result = Except.ok (some a) ∧
        (retryWithBackoff fn m d).invocations = r + 1) ∧
    (∀ (fn : Nat → Except ε α) (err : Nat → ε) (m d : Nat),
      1 ≤ m → (∀ k, fn k = Except.error (err k)) →
      (retryWithBackoff fn m d).result = Except.error (err (m - 1)) ∧
        (retryWithBackoff fn m d).invocations = m) := by
  constructor
  · intro fn m d r a hr hfail hok
    have h := retryLoop_firstSuccess fn d a r 0 m
      (by intro k _ hk2; exact hfail k (by omega)) (by simpa using hok) hr
    exact h
  · intro fn err m d hm hfail
    obtain ⟨n, rfl⟩ : ∃ n, m = n + 1 := ⟨m - 1, by omega⟩
    have h := (retryLoop_allFail fn err d hfail n 0)
    simpa using h

/-- Witness for the C1 theorem at concrete operations: failure on the first
invocation then success gives the success after 2 invocations, and an
always-failing operation raises after exactly 3 invocations. -/
theorem retry_success_and_exhaustion_witness :
    (1 < 3 ∧ (retryWithBackoff c1Fn 3 1000).result = Except.ok (some 7) ∧
      (retryWithBackoff c1Fn 3 1000).invocations = 2) ∧
    (1 ≤ 3 ∧ (retryWithBackoff c1FnF 3 1000).result = Except.error () ∧
      (retryWithBackoff c1FnF 3 1000).invocations = 3) := by
  constructor
  · refine ⟨by decide, ?_⟩
    exact retry_success_and_exhaustion.1 c1Fn 3 1000 1 7 (by decide)
      (by intro k hk; have hk0 : k = 0 := (by omega); subst hk0; exact ⟨(), rfl⟩) rfl
  · refine ⟨by decide, ?_⟩
    exact retry_success_and_exhaustion.2 c1FnF (fun _ => ()) 3 1000 (by decide)
      (fun _ => rfl)

/-- C3 counterexample: with the default maxRetries = 3, an operation that
fails its first three invocations is invoked exactly 3 times in total (so it
is re-invoked only 2 times after the initial failure, not 3), and the error
propagates even though a fourth invocation would have succeeded. -/
theorem retry_reinvocation_counterexample :
    retryWithBackoff c3Fn 3 1000 = ⟨Except.error (), 3, [2000, 4000]⟩ ∧
      c3Fn 3 = Except.ok () :=
  ⟨rfl, rfl⟩

/-- C3 (amended): each individual write is invoked at most maxRetries times
in total (default 3); after the initial attempt fails it may be re-invoked at
most maxRetries - 1 further times before the error is propagated. -/
theorem retry_invocations_le_maxRetries {ε α : Type} :
    ∀ (fn : Nat → Except ε α) (m d : Nat),
      (retryWithBackoff fn m d).invocations ≤ m :=
  fun fn m d => retryLoop_invocations_le fn d m 0

/-- C4: the delay scheduled before the i-th retry equals
initialDelay * 2 ^ i, for every i from the first retry up to the last one
taken, and the default call supplies initialDelay = 1000 (and maxRetries = 3). -/
theorem retry_delay_schedule {ε α : Type} :
    (∀ (fn : Nat → Except ε α) (m d : Nat),
      (retryWithBackoff fn m d).delays =
        (List.range' 1 (retryWithBackoff fn m d).delays.length).map
          (fun i => d * 2 ^ i)) ∧
    (∀ fn : Nat → Except ε α, retryWithBackoffDefault fn = retryWithBackoff fn 3 1000) := by
  constructor
  · intro fn m d
    have h := retryLoop_delays fn d m 0
    simpa using h
  · intro fn
    rfl

/-- C10: with maxRetries = 0 the loop never runs, so retryWithBackoff returns
undefined (modelled as Except.ok none) without invoking the operation; with
maxRetries at least 1 it never falls through to an undefined result. -/
theorem retry_zero_and_no_fallthrough {ε α : Type} :
    (∀ (fn : Nat → Except ε α) (d : Nat),
      (retryWithBackoff fn 0 d).result = Except.ok none ∧
        (retryWithBackoff fn 0 d).invocations = 0) ∧
    (∀ (fn : Nat → Except ε α) (m d : Nat), 1 ≤ m →
      (retryWithBackoff fn m d).result ≠ Except.ok none) := by
  constructor
  · intro fn d
    exact ⟨rfl, rfl⟩
  · intro fn m d hm
    exact retryLoop_result_ne_none fn d m 0 hm

/-- Witness for the C10 theorem: with maxRetries = 1 and an always-succeeding
operation, the result is not the undefined fallthrough. -/
theorem retry_zero_and_no_fallthrough_witness :
    1 ≤ 1 ∧ (retryWithBackoff c10Fn 1 1000).result ≠ Except.ok none :=
  ⟨by decide, retry_zero_and_no_fallthrough.2 c10Fn 1 1000 (by decide)⟩

/-
Embedding of initializeVectorStore (src/chatbot.ts lines 91-118):

    const batchSize = 50;
    const limit = pLimit(5);
    for (let i = 0; i < docs.length; i += batchSize) {
        const batch = docs.slice(i, i + batchSize);
        await Promise.all(
            batch.map(doc => limit(() => retryWithBackoff(() =>
                QdrantVectorStore.fromDocuments([doc], ...)))));
        console.log(`Processed ... out of ... documents`);
    }

A Document of the source is a pair of a pageContent string and a metadata
record, modelled as an association list of string keys and string values.
The vector store is modelled by an environment giving the outcome of each
invocation of the store write for each document; a full per-document write
is retryWithBackoff with the default parameters around that operation.
Within a batch the concurrent writes (admitted through the pLimit gate,
bounded at 5 in flight) are, since pLimit runs every enqueued task, all
issued; they are recorded in document order, and the rejection surfaced by
Promise.all is modelled as the error of the first failing write in that
order.  The batch loop itself is sequential: the await settles a batch
before the next slice is taken, and when Promise.all rejects, its error
propagates, skipping the progress log and every later batch.  The trace
records one write event per wrapped per-document operation and one progress
event per completed batch.
-/

structure Doc where
  pageContent : String
  metadata : List (String × String)

inductive IngestEvent where
  | write (batchIdx docIdx : Nat)
  | progress (processed total : Nat)

/-- Test whether an event is a progress report. -/
def isProgressB : IngestEvent → Bool
  | IngestEvent.progress _ _ => true
  | _ => false

/-- Batch index of a write event, none for progress events. -/
def writeBatchIdx : IngestEvent → Option Nat
  | IngestEvent.write b _ => some b
  | _ => none

/-- Sequence of batch indices of the write events of a trace, in order. -/
def writeBatchList (evs : List IngestEvent) : List Nat :=
  evs.filterMap writeBatchIdx

/-- Slicing of the document list into batches of batchSize = 50, in order,
following docs.slice(i, i + batchSize) for i = 0, 50, 100, ... -/
def sliceBatchesAux : Nat → List Doc → List (List Doc)
  | 0, _ => []
  | fuel + 1, d =>
    if d.isEmpty then [] else d.take 50 :: sliceBatchesAux fuel (d.drop 50)

def sliceBatches (d : List Doc) : List (List Doc) :=
  sliceBatchesAux d.length d

/-- Outcome of one fully retried per-document write: retryWithBackoff with
the default parameters around the write operation for that document. -/
def docWriteE {ε : Type} (env : Doc → Nat → Except ε Unit) (d : Doc) : Except ε Unit :=
  match (retryWithBackoffDefault (env d)).result with
  | Except.ok _ => Except.ok ()
  | Except.error e => Except.error e

/-- Outcome of a batch: ok when every per-document write succeeded, else the
error of the first failing write (the rejection surfaced by Promise.all). -/
def batchOutcome (env : Doc → Nat → Except ε Unit) : List Doc → Except ε Unit
  | [] => Except.ok ()
  | d :: rest =>
    match docWriteE env d with
    | Except.error e => Except.error e
    | Except.ok _ => batchOutcome env rest

/-- Write events issued for one batch: one per document of the batch. -/
def processBatchEvents (bIdx : Nat) (batch : List Doc) : List IngestEvent :=
  (List.range batch.length).map (fun j => IngestEvent.write bIdx j)

def ingestLoop (env : Doc → Nat → Except ε Unit) (total : Nat) :
    List (List Doc) → Nat → Nat → Except ε Unit × List IngestEvent
  | [], _, _ => (Except.ok (), [])
  | b :: rest, bIdx, processed =>
    match batchOutcome env b with
    | Except.error e => (Except.error e, processBatchEvents bIdx b)
    | Except.ok _ =>
      let next := ingestLoop env total rest (bIdx + 1) (processed + b.length)
      (next.1,
        processBatchEvents bIdx b ++
          IngestEvent.progress (processed + b.length) total :: next.2)

def initializeVectorStore (env : Doc → Nat → Except ε Unit) (docs : List Doc) :
    Except ε Unit × List IngestEvent :=
  ingestLoop env docs.length (sliceBatches docs) 0 0

/-- Environment in which every store write succeeds immediately. -/
def okEnv : Doc → Nat → Except Unit Unit := fun _ _ => Except.ok ()

/- Lemmas about batching. -/

theorem sliceBatchesAux_irrel :
    ∀ f₁ f₂ (d : List Doc), d.length ≤ f₁ → d.length ≤ f₂ →
      sliceBatchesAux f₁ d = sliceBatchesAux f₂ d := by
  intro f₁
  induction f₁ with
  | zero =>
    intro f₂ d h1 _
    have hd : d = [] := List.length_eq_zero.mp (by omega)
    subst hd
    cases f₂ <;> simp [sliceBatchesAux]
  | succ f ih =>
    intro f₂ d h1 h2
    by_cases hd : d = []
    · subst hd
      cases f₂ <;> simp [sliceBatchesAux]
    · have hlen : 1 ≤ d.length := by
        cases d with
        | nil => exact absurd rfl hd
        | cons a l => simp
      cases f₂ with
      | zero =>
        exact absurd (List.length_eq_zero.mp (by omega)) hd
      | succ g =>
        have hde : d.isEmpty = false := by
          cases d with
          | nil => exact absurd rfl hd
          | cons a l => rfl
        simp only [sliceBatchesAux, hde, Bool.false_eq_true, if_false]
        congr 1
        apply ih
        · rw [List.length_drop]; omega
        · rw [List.length_drop]; omega

theorem sliceBatches_cons (d : List Doc) (hd : d ≠ []) :
    sliceBatches d = d.take 50 :: sliceBatches (d.drop 50) := by
  have hlen : 1 ≤ d.length := by
    cases d with
    | nil => exact absurd rfl hd
    | cons a l => simp
  have hde : d.isEmpty = false := by
    cases d with
    | nil => exact absurd rfl hd
    | cons a l => rfl
  obtain ⟨n, hn⟩ : ∃ n, d.length = n + 1 := ⟨d.length - 1, by omega⟩
  show sliceBatchesAux d.length d = _
  rw [hn]
  simp only [sliceBatchesAux, hde, Bool.false_eq_true, if_false]
  congr 1
  apply sliceBatchesAux_irrel
  · rw [List.length_drop]; omega
  · exact Nat.le_refl _

theorem batchOutcome_okEnv : ∀ b : List Doc, batchOutcome okEnv b = Except.ok () := by
  intro b
  induction b with
  | nil => rfl
  | cons d rest ih =>
    have hw : docWriteE okEnv d = Except.ok () := rfl
    simp [batchOutcome, hw, ih]

theorem batchOutcome_error_mem {ε : Type} (env : Doc → Nat → Except ε Unit) :
    ∀ (l : List Doc) (e : ε), batchOutcome env l = Except.error e →
      ∃ d ∈ l, docWriteE env d = Except.error e := by
  intro l
  induction l with
  | nil =>
    intro e h
    simp [batchOutcome] at h
  | cons d rest ih =>
    intro e h
    cases hw : docWriteE env d with
    | error e2 =>
      simp only [batchOutcome, hw] at h
      refine ⟨d, by simp, ?_⟩
      rw [hw]
      exact h
    | ok u =>
      simp only [batchOutcome, hw] at h
      obtain ⟨d2, hd2, hw2⟩ := ih e h
      exact ⟨d2, by simp [hd2], hw2⟩

theorem mem_processBatchEvents {bIdx : Nat} {b : List Doc} (e : IngestEvent)
    (he : e ∈ processBatchEvents bIdx b) : ∃ j, e = IngestEvent.write bIdx j := by
  simp only [processBatchEvents, List.mem_map, List.mem_range] at he
  obtain ⟨j, _, hj⟩ := he
  exact ⟨j, hj.symm⟩

theorem filter_progress_map_write (l : List Nat) (bIdx : Nat) :
    (l.map (fun j => IngestEvent.write bIdx j)).filter isProgressB = [] := by
  induction l with
  | nil => rfl
  | cons a l ih => simp [isProgressB, ih]

theorem filter_progress_processBatchEvents (bIdx : Nat) (b : List Doc) :
    (processBatchEvents bIdx b).filter isProgressB = [] :=
  filter_progress_map_write (List.range b.length) bIdx

theorem writeBatchList_map_write (l : List Nat) (bIdx : Nat) :
    writeBatchList (l.map (fun j => IngestEvent.write bIdx j)) =
      List.replicate l.length bIdx := by
  induction l with
  | nil => rfl
  | cons a l ih =>
    simp only [writeBatchList, List.map_cons, List.filterMap_cons] at ih ⊢
    simp only [writeBatchIdx, List.length_cons, List.replicate_succ]
    rw [ih]

theorem writeBatchList_processBatchEvents (bIdx : Nat) (b : List Doc) :
    writeBatchList (processBatchEvents bIdx b) = List.replicate b.length bIdx := by
  have h := writeBatchList_map_write (List.range b.length) bIdx
  simpa [processBatchEvents] using h

theorem writeBatchList_append (a c : List IngestEvent) :
    writeBatchList (a ++ c) = writeBatchList a ++ writeBatchList c := by
  simp [writeBatchList, List.filterMap_append]

theorem writeBatchList_progress_cons (p t : Nat) (l : List IngestEvent) :
    writeBatchList (IngestEvent.progress p t :: l) = writeBatchList l := by
  simp [writeBatchList, List.filterMap_cons, writeBatchIdx]

theorem pairwise_le_replicate (n c : Nat) :
    List.Pairwise (fun x y => x ≤ y) (List.replicate n c) := by
  induction n with
  | zero => simp
  | succ m ih =>
    rw [List.replicate_succ, List.pairwise_cons]
    exact ⟨fun b hb => Nat.le_of_eq (List.eq_of_mem_replicate hb).symm, ih⟩

theorem ingestLoop_mono {ε : Type} (env : Doc → Nat → Except ε Unit) (t : Nat) :
    ∀ (bs : List (List Doc)) (bIdx p : Nat),
      List.Pairwise (fun x y => x ≤ y)
        (writeBatchList (ingestLoop env t bs bIdx p).2) ∧
      ∀ x ∈ writeBatchList (ingestLoop env t bs bIdx p).2, bIdx ≤ x := by
  intro bs
  induction bs with
  | nil =>
    intro bIdx p
    simp [ingestLoop, writeBatchList]
  | cons b rest ih =>
    intro bIdx p
    cases hb : batchOutcome env b with
    | error e =>
      simp only [ingestLoop, hb]
      rw [writeBatchList_processBatchEvents]
      refine ⟨pairwise_le_replicate _ _, ?_⟩
      intro x hx
      rw [List.eq_of_mem_replicate hx]
    | ok u =>
      have hrec := ih (bIdx + 1) (p + b.length)
      simp only [ingestLoop, hb]
      rw [writeBatchList_append, writeBatchList_progress_cons,
        writeBatchList_processBatchEvents]
      constructor
      · rw [List.pairwise_append]
        refine ⟨pairwise_le_replicate _ _, hrec.1, ?_⟩
        intro a ha y hy
        have ha2 := List.eq_of_mem_replicate ha
        have hy2 := hrec.2 y hy
        omega
      · intro x hx
        rw [List.mem_append] at hx
        cases hx with
        | inl hx =>
          have := List.eq_of_mem_replicate hx
          omega
        | inr hx =>
          have := hrec.2 x hx
          omega

theorem ingestLoop_fail {ε : Type} (env : Doc → Nat → Except ε Unit) (t : Nat) :
    ∀ (pre : List (List Doc)) (b : List Doc) (post : List (List Doc)) (e : ε)
      (bIdx p : Nat),
      (∀ q ∈ pre, batchOutcome env q = Except.ok ()) →
      batchOutcome env b = Except.error e →
      (ingestLoop env t (pre ++ b :: post) bIdx p).1 = Except.error e ∧
      (∀ bi j, IngestEvent.write bi j ∈ (ingestLoop env t (pre ++ b :: post) bIdx p).2 →
        bi ≤ bIdx + pre.length) ∧
      ((ingestLoop env t (pre ++ b :: post) bIdx p).2.filter isProgressB).length =
        pre.length := by
  intro pre
  induction pre with
  | nil =>
    intro b post e bIdx p _ hb
    simp only [List.nil_append, ingestLoop, hb]
    refine ⟨by trivial, ?_, ?_⟩
    · intro bi j hmem
      obtain ⟨j2, hj⟩ := mem_processBatchEvents _ hmem
      injection hj with hj1 _
      omega
    · rw [filter_progress_processBatchEvents]
      rfl
  | cons q pre' ih =>
    intro b post e bIdx p hpre hb
    have hq : batchOutcome env q = Except.ok () := hpre q (by simp)
    have hrec := ih b post e (bIdx + 1) (p + q.length)
      (fun r hr => hpre r (by simp [hr])) hb
    simp only [List.cons_append, ingestLoop, hq]
    refine ⟨hrec.1, ?_, ?_⟩
    · intro bi j hmem
      rw [List.mem_append] at hmem
      cases hmem with
      | inl hmem =>
        obtain ⟨j2, hj⟩ := mem_processBatchEvents _ hmem
        injection hj with hj1 _
        simp only [List.length_cons]
        omega
      | inr hmem =>
        rw [List.mem_cons] at hmem
        cases hmem with
        | inl hmem => simp at hmem
        | inr hmem =>
          have := hrec.2.1 bi j hmem
          simp only [List.length_cons]
          omega
    · rw [List.filter_append, filter_progress_processBatchEvents]
      simp only [List.nil_append, List.filter_cons, isProgressB, if_true,
        List.length_cons]
      exact congrArg (fun n => n + 1) hrec.2.2

/-- C2: for an input sequence of 120 chunks with batch size 50,
initializeVectorStore partitions the sequence in order into exactly the 3
slices of sizes 50, 50 and 20, processes them in program order (the full
event trace is the batch-0 writes, then progress 50/120, then the batch-1
writes, then progress 100/120, then the batch-2 writes, then progress
120/120), and reports progress exactly 3 times with cumulative totals 50,
100 and 120 out of 120. -/
theorem ingest_120_chunks (docs : List Doc) (h : docs.length = 120) :
    sliceBatches docs =
      [docs.take 50, (docs.drop 50).take 50, ((docs.drop 50).drop 50).take 50] ∧
    (sliceBatches docs).map List.length = [50, 50, 20] ∧
    initializeVectorStore okEnv docs =
      (Except.ok (),
        processBatchEvents 0 (docs.take 50) ++
          IngestEvent.progress 50 120 ::
            (processBatchEvents 1 ((docs.drop 50).take 50) ++
              IngestEvent.progress 100 120 ::
                (processBatchEvents 2 (((docs.drop 50).drop 50).take 50) ++
                  [IngestEvent.progress 120 120]))) ∧
    (initializeVectorStore okEnv docs).2.filter isProgressB =
      [IngestEvent.progress 50 120, IngestEvent.progress 100 120,
        IngestEvent.progress 120 120] := by
  have h1 : docs ≠ [] := by
    intro hn
    rw [hn] at h
    simp at h
  have hd1 : (docs.drop 50).length = 70 := by
    rw [List.length_drop, h]
  have h2 : docs.drop 50 ≠ [] := by
    intro hn
    rw [hn] at hd1
    simp at hd1
  have hd2 : ((docs.drop 50).drop 50).length = 20 := by
    rw [List.length_drop, hd1]
  have h3 : (docs.drop 50).drop 50 ≠ [] := by
    intro hn
    rw [hn] at hd2
    simp at hd2
  have hd3 : ((docs.drop 50).drop 50).drop 50 = [] := by
    apply List.length_eq_zero.mp
    rw [List.length_drop, hd2]
  have hb0 : (docs.take 50).length = 50 := by
    rw [List.length_take, h]; omega
  have hb1 : ((docs.drop 50).take 50).length = 50 := by
    rw [List.length_take, hd1]; omega
  have hb2 : (((docs.drop 50).drop 50).take 50).length = 20 := by
    rw [List.length_take, hd2]; omega
  have hs : sliceBatches docs =
      [docs.take 50, (docs.drop 50).take 50, ((docs.drop 50).drop 50).take 50] := by
    rw [sliceBatches_cons docs h1, sliceBatches_cons _ h2, sliceBatches_cons _ h3, hd3]
    rfl
  have htr : initializeVectorStore okEnv docs =
      (Except.ok (),
        processBatchEvents 0 (docs.take 50) ++
          IngestEvent.progress 50 120 ::
            (processBatchEvents 1 ((docs.drop 50).take 50) ++
              IngestEvent.progress 100 120 ::
                (processBatchEvents 2 (((docs.drop 50).drop 50).take 50) ++
                  [IngestEvent.progress 120 120]))) := by
    show ingestLoop okEnv docs.length (sliceBatches docs) 0 0 = _
    rw [hs, h]
    simp only [ingestLoop, batchOutcome_okEnv, hb0, hb1, hb2]
  refine ⟨hs, ?_, htr, ?_⟩
  · rw [hs]
    simp only [List.map_cons, List.map_nil]
    rw [hb0, hb1, hb2]
  · rw [htr]
    simp only [List.filter_append, filter_progress_processBatchEvents,
      List.filter_cons, isProgressB, if_true, List.nil_append]
    rfl

/-- Input for the C2 witness: 120 identical chunks. -/
def c2Docs : List Doc := List.replicate 120 ⟨"chunk", [("source", "a.md")]⟩

/-- Witness for the C2 theorem at a concrete list of 120 chunks. -/
theorem ingest_120_chunks_witness :
    c2Docs.length = 120 ∧
    (sliceBatches c2Docs =
      [c2Docs.take 50, (c2Docs.drop 50).take 50, ((c2Docs.drop 50).drop 50).take 50] ∧
    (sliceBatches c2Docs).map List.length = [50, 50, 20] ∧
    initializeVectorStore okEnv c2Docs =
      (Except.ok (),
        processBatchEvents 0 (c2Docs.take 50) ++
          IngestEvent.progress 50 120 ::
            (processBatchEvents 1 ((c2Docs.drop 50).take 50) ++
              IngestEvent.progress 100 120 ::
                (processBatchEvents 2 (((c2Docs.drop 50).drop 50).take 50) ++
                  [IngestEvent.progress 120 120]))) ∧
    (initializeVectorStore okEnv c2Docs).2.filter isProgressB =
      [IngestEvent.progress 50 120, IngestEvent.progress 100 120,
        IngestEvent.progress 120 120]) :=
  ⟨by simp [c2Docs], ingest_120_chunks c2Docs (by simp [c2Docs])⟩

/-- C9: batches are processed in program order, and a failed batch stops the
run.  First part: the batch indices of the write events of any run appear in
non-decreasing order, so no write of a later batch is issued before the
writes of an earlier batch.  Second part: if every batch before batch k
succeeds and some write of batch k ultimately fails after its retries, then
initializeVectorStore propagates the error of a failing write of batch k, no
write event of any batch after k appears in the trace, and exactly k
progress reports are emitted (none for batch k or later). -/
theorem batches_sequential_and_failure_stops {ε : Type} :
    (∀ (env : Doc → Nat → Except ε Unit) (docs : List Doc),
      List.Pairwise (fun x y => x ≤ y)
        (writeBatchList (initializeVectorStore env docs).2)) ∧
    (∀ (env : Doc → Nat → Except ε Unit) (docs : List Doc)
      (pre : List (List Doc)) (b : List Doc) (post : List (List Doc)) (e : ε),
      sliceBatches docs = pre ++ b :: post →
      (∀ q ∈ pre, batchOutcome env q = Except.ok ()) →
      batchOutcome env b = Except.error e →
      (initializeVectorStore env docs).1 = Except.error e ∧
      (∃ d ∈ b, docWriteE env d = Except.error e) ∧
      (∀ bi j, IngestEvent.write bi j ∈ (initializeVectorStore env docs).2 →
        bi ≤ pre.length) ∧
      ((initializeVectorStore env docs).2.filter isProgressB).length = pre.length) := by
  constructor
  · intro env docs
    exact (ingestLoop_mono env docs.length (sliceBatches docs) 0 0).1
  · intro env docs pre b post e hsl hpre hb
    have hfail := ingestLoop_fail env docs.length pre b post e 0 0 hpre hb
    rw [← hsl] at hfail
    refine ⟨hfail.1, batchOutcome_error_mem env b e hb, ?_, hfail.2.2⟩
    intro bi j hmem
    have := hfail.2.1 bi j hmem
    omega

/-- Store environment of the C9 witness: every write invocation fails. -/
def failEnv : Doc → Nat → Except Unit Unit := fun _ _ => Except.error ()

/-- Document of the C9 witness. -/
def c9Doc : Doc := ⟨"a", [("source", "a.md")]⟩

/-- Witness for the C9 theorem: a single document whose write always fails
makes its batch fail, the error propagates, and no progress is reported. -/
theorem batches_sequential_and_failure_stops_witness :
    sliceBatches [c9Doc] = [] ++ [c9Doc] :: [] ∧
    batchOutcome failEnv [c9Doc] = Except.error () ∧
    ((initializeVectorStore failEnv [c9Doc]).1 = Except.error () ∧
      (∃ d ∈ [c9Doc], docWriteE failEnv d = Except.error ()) ∧
      (∀ bi j, IngestEvent.write bi j ∈ (initializeVectorStore failEnv [c9Doc]).2 →
        bi ≤ List.length ([] : List (List Doc))) ∧
      ((initializeVectorStore failEnv [c9Doc]).2.filter isProgressB).length =
        List.length ([] : List (List Doc))) :=
  ⟨rfl, rfl,
    batches_sequential_and_failure_stops.2 failEnv [c9Doc] [] [c9Doc] [] ()
      rfl (by simp) rfl⟩

/-
Embedding of loadDocumentsFromDirectory (src/chatbot.ts lines 25-71).  The
recursive directory listing obtained from fs.readdir is a list of entries.
For each entry the environment provides:
  - name: the file path relative to the directory;
  - ext: the result of path.extname(file).toLowerCase();
  - read: the outcome of fs.readFile(filePath) (content or a thrown error);
  - htmlTitle, htmlDescription, htmlMain: what the cheerio selectors
    $(title).text(), $(meta description).attr(content) defaulted to the
    empty string, and $(.content).text() extract from the file content
    (cheerio.load itself does not throw).
The loop body builds metadata starting with the source key, dispatches on
the extension, skips unsupported extensions with a warning, and catches any
per-file error, skipping that file.
-/

structure FileEntry where
  name : String
  ext : String
  read : Except String String
  htmlTitle : String
  htmlDescription : String
  htmlMain : String

/-- Boolean success test on a read outcome. -/
def isOkB (r : Except String String) : Bool :=
  match r with
  | Except.ok _ => true
  | Except.error _ => false

/-- One iteration of the loader loop: the Document pushed for this file, or
none when the file is skipped (unsupported extension or caught error). -/
def processFile (f : FileEntry) : Option Doc :=
  if f.ext = ".txt" ∨ f.ext = ".md" then
    match f.read with
    | Except.ok content => some ⟨content, [("source", f.name)]⟩
    | Except.error _ => none
  else if f.ext = ".html" then
    match f.read with
    | Except.ok _ =>
      some ⟨f.htmlTitle ++ "\n\n" ++ f.htmlDescription ++ "\n\n" ++ f.htmlMain,
        [("source", f.name), ("title", f.htmlTitle),
          ("description", f.htmlDescription)]⟩
    | Except.error _ => none
  else none

def loadDocumentsFromDirectory (files : List FileEntry) : List Doc :=
  files.filterMap processFile

/-- The extensions the loader dispatch recognizes. -/
def recognizedExt (e : String) : Bool :=
  e = ".txt" || e = ".md" || e = ".html"

/-- Modelled from the spec: the Text Chunker is the langchain library class
RecursiveCharacterTextSplitter, called in initializeChatbot with chunkSize
1000 and chunkOverlap 200; its code is not part of this repository.  Per
the spec contract for the Chunker: content is split into windows of at most
chunkSize characters, consecutive windows of the same Document overlap by
chunkOverlap characters, order follows position in the Document, empty
Documents produce zero chunks, and every chunk carries the metadata of its
Document (in particular its source value) unchanged. -/
def splitContentAux : Nat → List Char → List (List Char)
  | 0, _ => []
  | _, [] => []
  | fuel + 1, s =>
    if s.length ≤ 1000 then [s]
    else s.take 1000 :: splitContentAux fuel (s.drop 800)

/-- Chunks of one Document: windows of its content, each carrying the
metadata of the Document. -/
def splitDocument (d : Doc) : List Doc :=
  (splitContentAux d.pageContent.length d.pageContent.toList).map
    (fun c => ⟨String.mk c, d.metadata⟩)

/- Lemmas about the loader and the chunker. -/

theorem processFile_isSome (f : FileEntry) :
    (processFile f).isSome = (recognizedExt f.ext && isOkB f.read) := by
  unfold processFile recognizedExt
  split_ifs with h1 h2
  · cases hr : f.read with
    | ok c =>
      cases h1 with
      | inl h => simp [h, hr, isOkB]
      | inr h => simp [h, hr, isOkB]
    | error e =>
      cases h1 with
      | inl h => simp [h, hr, isOkB]
      | inr h => simp [h, hr, isOkB]
  · cases hr : f.read with
    | ok c => simp [h2, hr, isOkB]
    | error e => simp [h2, hr, isOkB]
  · push_neg at h1
    simp [h1.1, h1.2, h2]

theorem length_filterMap_isSome (l : List FileEntry) :
    (l.filterMap processFile).length =
      (l.filter (fun f => (processFile f).isSome)).length := by
  induction l with
  | nil => rfl
  | cons f rest ih =>
    cases hp : processFile f with
    | none => simp [List.filterMap_cons, List.filter_cons, hp, ih]
    | some d => simp [List.filterMap_cons, List.filter_cons, hp, ih]

theorem processFile_source (f : FileEntry) (d : Doc)
    (h : processFile f = some d) :
    d.metadata.lookup "source" = some f.name := by
  unfold processFile at h
  split_ifs at h
  · cases hr : f.read with
    | ok c =>
      rw [hr] at h
      cases h
      simp [List.lookup]
    | error e =>
      rw [hr] at h
      cases h
  · cases hr : f.read with
    | ok c =>
      rw [hr] at h
      cases h
      simp [List.lookup]
    | error e =>
      rw [hr] at h
      cases h

theorem splitContentAux_ne_nil :
    ∀ fuel (s c : List Char), c ∈ splitContentAux fuel s → c ≠ [] := by
  intro fuel
  induction fuel with
  | zero =>
    intro s c hc
    simp [splitContentAux] at hc
  | succ n ih =>
    intro s c hc
    cases s with
    | nil => simp [splitContentAux] at hc
    | cons x xs =>
      simp only [splitContentAux] at hc
      split_ifs at hc with hlen
      · rw [List.mem_singleton] at hc
        subst hc
        simp
      · rw [List.mem_cons] at hc
        cases hc with
        | inl hc =>
          subst hc
          simp [List.take_cons]
        | inr hc =>
          exact ih _ c hc

/-- C7: the loader returns exactly one Document per file whose extension is
recognized and whose read succeeds, and zero Documents for the other files;
a per-file failure only removes that file from the result, so the result
length never exceeds the number of input files. -/
theorem loader_one_doc_per_recognized_file (files : List FileEntry) :
    (loadDocumentsFromDirectory files).length ≤ files.length ∧
    (loadDocumentsFromDirectory files).length =
      (files.filter (fun f => recognizedExt f.ext && isOkB f.read)).length ∧
    ∀ f : FileEntry, (processFile f).isSome = (recognizedExt f.ext && isOkB f.read) := by
  refine ⟨List.length_filterMap_le processFile files, ?_, processFile_isSome⟩
  rw [show loadDocumentsFromDirectory files = files.filterMap processFile from rfl,
    length_filterMap_isSome]
  congr 1
  apply List.filter_congr
  intro f _
  exact processFile_isSome f

/-- C5 counterexample: a directory containing an empty .txt file makes the
loader produce a Document whose content is the empty string, refuting the
non-empty content part of the claim. -/
def emptyTxtFile : FileEntry := ⟨"a.txt", ".txt", Except.ok "", "", "", ""⟩

theorem loader_empty_content_counterexample :
    ∃ d ∈ loadDocumentsFromDirectory [emptyTxtFile], d.pageContent = "" := by
  refine ⟨⟨"", [("source", "a.txt")]⟩, ?_, rfl⟩
  rw [show loadDocumentsFromDirectory [emptyTxtFile] =
    [⟨"", [("source", "a.txt")]⟩] from rfl]
  exact List.mem_singleton.mpr rfl

/-- C5 (amended): every Document produced by the loader carries a source key
in its metadata holding the name of the file it came from, and every Chunk
derived from a Document has non-empty content and the same source value as
its Document; the Document itself, however, may have empty content (for
example when an empty .txt file is read). -/
theorem documents_have_source_and_chunks_preserve (files : List FileEntry)
    (d : Doc) (hd : d ∈ loadDocumentsFromDirectory files) :
    (∃ f ∈ files, d.metadata.lookup "source" = some f.name) ∧
    ∀ c ∈ splitDocument d, c.pageContent ≠ "" ∧
      c.metadata.lookup "source" = d.metadata.lookup "source" := by
  constructor
  · rw [show loadDocumentsFromDirectory files = files.filterMap processFile from rfl,
      List.mem_filterMap] at hd
    obtain ⟨f, hf, hpf⟩ := hd
    exact ⟨f, hf, processFile_source f d hpf⟩
  · intro c hc
    simp only [splitDocument, List.mem_map] at hc
    obtain ⟨cl, hcl, hceq⟩ := hc
    subst hceq
    refine ⟨?_, rfl⟩
    intro hempty
    have hnil : cl = [] := congrArg String.data hempty
    exact splitContentAux_ne_nil _ _ cl hcl hnil

/-- File of the C5 witness: a one-line markdown file. -/
def c5File : FileEntry := ⟨"b.md", ".md", Except.ok "hello", "", "", ""⟩

/-- Witness for the C5 theorem at a concrete one-file directory. -/
theorem documents_have_source_and_chunks_preserve_witness :
    (⟨"hello", [("source", "b.md")]⟩ : Doc) ∈ loadDocumentsFromDirectory [c5File] ∧
    ((∃ f ∈ [c5File],
        (⟨"hello", [("source", "b.md")]⟩ : Doc).metadata.lookup "source" = some f.name) ∧
      ∀ c ∈ splitDocument ⟨"hello", [("source", "b.md")]⟩, c.pageContent ≠ "" ∧
        c.metadata.lookup "source" =
          (⟨"hello", [("source", "b.md")]⟩ : Doc).metadata.lookup "source") := by
  have hmem : (⟨"hello", [("source", "b.md")]⟩ : Doc) ∈
      loadDocumentsFromDirectory [c5File] := by
    rw [show loadDocumentsFromDirectory [c5File] =
      [⟨"hello", [("source", "b.md")]⟩] from rfl]
    exact List.mem_singleton.mpr rfl
  exact ⟨hmem, documents_have_source_and_chunks_preserve [c5File] _ hmem⟩

/-
Embedding of initializeChatbot (src/chatbot.ts lines 149-172).  The switch
on sourceType dispatches to one of the three loaders (default: throw
Error, and since the check is the first statement, nothing has been loaded,
split or written at that point), then splits the raw documents with the
chunker and hands the chunks to initializeVectorStore.  The environment
provides the directory listing and the documents the url and github
loaders (library code) would return, and the vector-store write outcomes.
The trace records a loaded event, a splitDone event, and the ingestion
events, in order; the trace of the error path is empty.
-/

structure ChatbotEnv where
  dirFiles : List FileEntry
  urlDocs : List Doc
  githubDocs : List Doc
  writeEnv : Doc → Nat → Except String Unit

inductive PipelineEvent where
  | loaded (numDocs : Nat)
  | splitDone (numChunks : Nat)
  | ingest (e : IngestEvent)

/-- Split-then-ingest tail of initializeChatbot, common to the three
loader branches. -/
def pipelineRun (env : ChatbotEnv) (rawDocs : List Doc) :
    Except String Unit × List PipelineEvent :=
  let docs := rawDocs.flatMap splitDocument
  let tr := initializeVectorStore env.writeEnv docs
  (tr.1,
    PipelineEvent.loaded rawDocs.length ::
      PipelineEvent.splitDone docs.length :: tr.2.map PipelineEvent.ingest)

def initializeChatbot (env : ChatbotEnv) (source sourceType : String) :
    Except String Unit × List PipelineEvent :=
  if sourceType = "directory" then
    pipelineRun env (loadDocumentsFromDirectory env.dirFiles)
  else if sourceType = "url" then
    pipelineRun env env.urlDocs
  else if sourceType = "github" then
    pipelineRun env env.githubDocs
  else (Except.error "Invalid source type", [])

/-- C6: an unknown sourceType makes initializeChatbot fail immediately with
the invalid-argument error and an empty effect trace, so nothing is loaded,
split or written. -/
theorem invalid_source_type_fails_fast (env : ChatbotEnv)
    (source sourceType : String) (h1 : sourceType ≠ "directory")
    (h2 : sourceType ≠ "url") (h3 : sourceType ≠ "github") :
    initializeChatbot env source sourceType =
      (Except.error "Invalid source type", []) := by
  simp [initializeChatbot, h1, h2, h3]

/-- Environment of the C6 witness. -/
def c6Env : ChatbotEnv := ⟨[], [], [], fun _ _ => Except.ok ()⟩

/-- Witness for the C6 theorem at the unknown source type file. -/
theorem invalid_source_type_fails_fast_witness :
    ("file" ≠ "directory" ∧ "file" ≠ "url" ∧ "file" ≠ "github") ∧
    initializeChatbot c6Env "./docs" "file" =
      (Except.error "Invalid source type", []) :=
  ⟨⟨by decide, by decide, by decide⟩,
    invalid_source_type_fails_fast c6Env "./docs" "file"
      (by decide) (by decide) (by decide)⟩

/-
Embedding of the question-answering chain built by createChatbot
(src/chatbot.ts lines 184-210) and run by askQuestion:

    const prompt = PromptTemplate.fromTemplate(
        `Answer the following question based on the context:
        Context: {context}
        Question: {question}
        Answer:`);
    const chain = RunnableSequence.from([
        { context: async (input) => {
              const docs = await retriever.getRelevantDocuments(input.question);
              return docs.map(doc => doc.pageContent).join('\n'); },
          question: (input) => input.question },
        prompt, ollama]);

The retriever and the language model are abstract functions of the
environment.  chainInvoke returns the answer together with the list of
prompts the model was invoked with and the list of queries the retriever
was invoked with, so single invocation of each is observable.
-/

structure QAEnv where
  retriever : String → List Doc
  model : String → String

/-- The fixed prompt template string of createChatbot. -/
def promptTemplate : String :=
  "Answer the following question based on the context:\n        Context: \x7bcontext\x7d\n        Question: \x7bquestion\x7d\n        Answer:"

/-- Rendering of the template: each template variable occurrence is
replaced by its value. -/
def renderPrompt (context question : String) : String :=
  (promptTemplate.replace "\x7bcontext\x7d" context).replace
    "\x7bquestion\x7d" question

/-- First chain stage: build the context (newline-joined contents of the
retrieved chunks) and pass the question through. -/
def contextStage (env : QAEnv) (question : String) : String × String :=
  (String.intercalate "\n" ((env.retriever question).map Doc.pageContent), question)

/-- Second chain stage: render the prompt from context and question. -/
def promptStage (p : String × String) : String :=
  renderPrompt p.1 p.2

/-- Third chain stage: invoke the model, recording the prompt. -/
def modelStage (env : QAEnv) (prompt : String) : String × List String :=
  (env.model prompt, [prompt])

/-- The composed RunnableSequence, invoked on a question: returns the
answer, the model invocation prompts and the retriever invocation queries. -/
def chainInvoke (env : QAEnv) (question : String) :
    String × List String × List String :=
  let ctxq := contextStage env question
  let prompt := promptStage ctxq
  let ans := modelStage env prompt
  (ans.1, ans.2, [question])

/-- C8: for every question, the chain renders the fixed template with the
context variable replaced by the newline-joined contents of the retrieved
chunks and the question variable replaced by the question, invokes the
language model exactly once with that rendered prompt, invokes the
retriever exactly once, and returns the model response as the answer; no
step is retried. -/
theorem qa_renders_prompt_and_invokes_once (env : QAEnv) (question : String) :
    chainInvoke env question =
      (env.model (renderPrompt
          (String.intercalate "\n" ((env.retriever question).map Doc.pageContent))
          question),
        [renderPrompt
          (String.intercalate "\n" ((env.retriever question).map Doc.pageContent))
          question],
        [question]) :=
  rfl

end Chatbot
